import Mathlib

/-!
Verification of the adaptive decision engine of the morty repository.

The development shallowly embeds the decision engine: the hot-hand
contextual-bandit strategy (ultimate-strategy source), the Purge phase
model of the final strategy (the unnamed strategy file with the
Beta/Thompson learner), and the wave-prediction phase detector.
JavaScript numbers holding integer counts are embedded as Nat or Int,
probability arithmetic as Rat, and the floating-point Gamma/Beta sampler
is idealized over the reals with an explicit stream of random draws.
-/

/-- The three channels (planets) of the outcome service, from types.ts. -/
inductive Planet where
  | onACob : Planet
  | cronenberg : Planet
  | purge : Planet
deriving DecidableEq, Repr

/-- Embeds the helper mod from the strategy source, ((a % n) + n) % n,
where the JavaScript % on integers is truncating remainder (Int.tmod). -/
def jsMod (a n : ℤ) : ℤ := (Int.tmod a n + n).tmod n

/-- Embeds distMod from the strategy source: circular distance modulo n. -/
def distMod (a b n : ℤ) : ℤ :=
  let d := |jsMod (a - b) n|
  min d (n - d)

/-- Embeds betaMean from the strategy source: mean of a Beta(a, b) posterior. -/
def betaMean (a b : ℚ) : ℚ := a / (a + b)

/-- Embeds clampMorties from the strategy source:
max(1, min(3, min(n, remaining))). -/
def clampMorties (n remaining : ℕ) : ℕ := max 1 (min 3 (min n remaining))

/-- Tunable from the strategy source: PURGE_PERIOD = 200. -/
def PURGE_PERIOD : ℤ := 200

/-- Tunable from the strategy source: PURGE_WINDOW_TIGHT = 2. -/
def PURGE_WINDOW_TIGHT : ℤ := 2

/-- Tunable from the strategy source: PURGE_WINDOW_PROBE = 4. -/
def PURGE_WINDOW_PROBE : ℤ := 4

/-- Tunable from the strategy source: PURGE_PROBE_INTERVAL = 25. -/
def PURGE_PROBE_INTERVAL : ℤ := 25

/-- Tunable from the strategy source: CONF_FOR_X3 = 2. -/
def CONF_FOR_X3 : ℤ := 2

/-- Tunable from the strategy source: MAX_STREAK_BEFORE_SANITY = 6. -/
def MAX_STREAK_BEFORE_SANITY : ℕ := 6

/-- Tunable from the strategy source: STAY_THRESHOLD = 0.72. -/
def STAY_THRESHOLD : ℚ := 72 / 100

/-- Beta posterior counts, from the BetaState type of the strategy source. -/
structure BetaState where
  a : ℚ
  b : ℚ
deriving DecidableEq, Repr

/-- Per-channel learner state, from the PlanetState type of the strategy
source. -/
structure PlanetState where
  afterWin : BetaState
  afterLoss : BetaState
  lastOutcome : Option Bool
  streakWins : ℕ
deriving DecidableEq, Repr

/-- Embeds mkPlanetState: WARM_PRIOR (7, 3) for afterWin and COLD_PRIOR
(3, 7) for afterLoss, no outcome seen, streak 0. -/
def mkPlanetState : PlanetState :=
  { afterWin := { a := 7, b := 3 }
    afterLoss := { a := 3, b := 7 }
    lastOutcome := none
    streakWins := 0 }

/-- Embeds the learning-updates section of the run loop of the strategy
source: the Beta posterior selected by the pre-observation lastOutcome
(afterWin on a previous win, afterLoss on a previous loss or when no
outcome was seen yet) absorbs the new observation, and only then the
streak counter and lastOutcome are recomputed from the new observation. -/
def learnUpdate (st : PlanetState) (survived : Bool) : PlanetState :=
  let st1 :=
    match st.lastOutcome with
    | some true =>
        if survived then
          { st with afterWin := { st.afterWin with a := st.afterWin.a + 1 } }
        else
          { st with afterWin := { st.afterWin with b := st.afterWin.b + 1 } }
    | some false =>
        if survived then
          { st with afterLoss := { st.afterLoss with a := st.afterLoss.a + 1 } }
        else
          { st with afterLoss := { st.afterLoss with b := st.afterLoss.b + 1 } }
    | none =>
        if survived then
          { st with afterLoss := { st.afterLoss with a := st.afterLoss.a + 1 } }
        else
          { st with afterLoss := { st.afterLoss with b := st.afterLoss.b + 1 } }
  let newStreak : ℕ :=
    if survived then (if st.lastOutcome = some true then st.streakWins + 1 else 1)
    else 0
  { st1 with streakWins := newStreak, lastOutcome := some survived }

/-- C1: per observed outcome exactly one of the two Beta posteriors gains
exactly one count, chosen by the pre-observation lastOutcome (afterWin if
it was success, afterLoss if it was failure or unknown), and the streak
counter and lastOutcome are recomputed afterwards from the new
observation. -/
theorem learnUpdate_single_posterior (st : PlanetState) (survived : Bool) :
    (match st.lastOutcome with
     | some true =>
        (learnUpdate st survived).afterWin.a + (learnUpdate st survived).afterWin.b
          = st.afterWin.a + st.afterWin.b + 1 ∧
        (learnUpdate st survived).afterLoss = st.afterLoss
     | some false =>
        (learnUpdate st survived).afterLoss.a + (learnUpdate st survived).afterLoss.b
          = st.afterLoss.a + st.afterLoss.b + 1 ∧
        (learnUpdate st survived).afterWin = st.afterWin
     | none =>
        (learnUpdate st survived).afterLoss.a + (learnUpdate st survived).afterLoss.b
          = st.afterLoss.a + st.afterLoss.b + 1 ∧
        (learnUpdate st survived).afterWin = st.afterWin) ∧
    (learnUpdate st survived).lastOutcome = some survived ∧
    (learnUpdate st survived).streakWins =
      (if survived then (if st.lastOutcome = some true then st.streakWins + 1 else 1)
       else 0) := by
  rcases st with ⟨⟨wa, wb⟩, ⟨la, lb⟩, lo, sk⟩
  rcases lo with _ | b'
  · cases survived <;> simp [learnUpdate] <;> ring
  · cases b' <;> cases survived <;> simp [learnUpdate] <;> ring

/-- C4: the committed batch size is max(1, min(3, min(requested,
remaining))); for any requested count and any positive remaining budget it
lies in the interval from 1 to 3 and never exceeds the remaining budget. -/
theorem clampMorties_spec (n r : ℕ) (hn : 1 ≤ n) (hr : 1 ≤ r) :
    clampMorties n r = max 1 (min 3 (min n r)) ∧
    1 ≤ clampMorties n r ∧ clampMorties n r ≤ 3 ∧ clampMorties n r ≤ r := by
  refine ⟨rfl, ?_, ?_, ?_⟩ <;> simp only [clampMorties] <;> omega

/-- Witness for clampMorties_spec at requested count 3 and remaining 2. -/
theorem clampMorties_spec_witness :
    clampMorties 3 2 = max 1 (min 3 (min 3 2)) ∧
    1 ≤ clampMorties 3 2 ∧ clampMorties 3 2 ≤ 3 ∧ clampMorties 3 2 ≤ 2 :=
  clampMorties_spec 3 2 (by decide) (by decide)

/-- C7: for positive Beta counts, folding in one more success does not
decrease the posterior success mean, folding in one more failure does not
decrease the posterior failure mean, and folding in one more failure does
not increase the posterior success mean. -/
theorem betaMean_monotone (a b : ℚ) (ha : 0 < a) (hb : 0 < b) :
    betaMean a b ≤ betaMean (a + 1) b ∧
    betaMean b a ≤ betaMean (b + 1) a ∧
    betaMean a (b + 1) ≤ betaMean a b := by
  have hab : 0 < a + b := by linarith
  have hab1 : 0 < a + 1 + b := by linarith
  have hba1 : 0 < b + 1 + a := by linarith
  have hab2 : 0 < a + (b + 1) := by linarith
  refine ⟨?_, ?_, ?_⟩
  · rw [betaMean, betaMean, div_le_div_iff hab hab1]
    nlinarith
  · rw [betaMean, betaMean, div_le_div_iff (by linarith : (0:ℚ) < b + a) hba1]
    nlinarith
  · rw [betaMean, betaMean, div_le_div_iff hab2 hab]
    nlinarith

/-- Witness for betaMean_monotone at the warm prior (7, 3). -/
theorem betaMean_monotone_witness :
    betaMean 7 3 ≤ betaMean (7 + 1) 3 ∧
    betaMean 3 7 ≤ betaMean (3 + 1) 7 ∧
    betaMean 7 (3 + 1) ≤ betaMean 7 3 :=
  betaMean_monotone 7 3 (by norm_num) (by norm_num)

/-- Embeds inTightPurge from the strategy source: the offset is known and
the current step is within the tight crest window of the Purge cycle. -/
def inTightPurge (purgeOffset : Option ℤ) (t : ℤ) : Bool :=
  match purgeOffset with
  | none => false
  | some o => decide (distMod (jsMod t PURGE_PERIOD) o PURGE_PERIOD ≤ PURGE_WINDOW_TIGHT)

/-- Embeds inProbePurge from the strategy source: the offset is known and
the current step is within the wider probe window of the Purge cycle. -/
def inProbePurge (purgeOffset : Option ℤ) (t : ℤ) : Bool :=
  match purgeOffset with
  | none => false
  | some o => decide (distMod (jsMod t PURGE_PERIOD) o PURGE_PERIOD ≤ PURGE_WINDOW_PROBE)

/-- Embeds needPurgeProbe from the strategy source: the offset is unknown
and at least PURGE_PROBE_INTERVAL steps have passed since the last probe.
The initial lastPurgeProbe of negative infinity is embedded as none. -/
def needPurgeProbe (purgeOffset : Option ℤ) (lastPurgeProbe : Option ℤ) (t : ℤ) : Bool :=
  match purgeOffset with
  | some _ => false
  | none =>
    match lastPurgeProbe with
    | none => true
    | some l => decide (t - l ≥ PURGE_PROBE_INTERVAL)

/-- Embeds the loss case of the Purge recentering block of the run loop:
inside the probe window the confidence drops (floored at 0) and the
offset is nudged one step toward the observed phase, choosing the
direction by whether the circular delta exceeds half a period. -/
def purgeFailAdjust (t : ℤ) (purgeOffset : Option ℤ) (purgeConfidence : ℤ) :
    Option ℤ × ℤ :=
  match purgeOffset with
  | some o =>
    if inProbePurge (some o) t then
      let phase := jsMod t PURGE_PERIOD
      let delta := jsMod (phase - o) PURGE_PERIOD
      (some (jsMod (o + (if delta > PURGE_PERIOD / 2 then -1 else 1)) PURGE_PERIOD),
       max 0 (purgeConfidence - 1))
    else (some o, purgeConfidence)
  | none => (none, purgeConfidence)

/-- Embeds the Purge recentering and confidence block of the run loop of
the strategy source, executed after acting on the Purge planet. On a win
with unknown offset the phase is learned with confidence 1; on a win
inside the probe window the confidence is bumped (capped at 4) and the
offset nudged by the rounded average (3 o + phase) / 4, where
Math.round(x / 4) is the integer floor of (x + 2) / 4 (Int.fdiv) and the
JavaScript % is truncating remainder (Int.tmod). On a loss the
purgeFailAdjust step runs and afterwards, whenever the confidence is 0,
the offset reverts to unknown. -/
def purgeUpdate (t : ℤ) (survived : Bool) (purgeOffset : Option ℤ) (purgeConfidence : ℤ) :
    Option ℤ × ℤ :=
  let phase := jsMod t PURGE_PERIOD
  if survived then
    match purgeOffset with
    | none => (some phase, 1)
    | some o =>
      if inProbePurge (some o) t then
        (some (Int.tmod ((o * 3 + phase + 2).fdiv 4) PURGE_PERIOD),
         min 4 (purgeConfidence + 1))
      else (some o, purgeConfidence)
  else
    let st := purgeFailAdjust t purgeOffset purgeConfidence
    if st.2 = 0 then (none, st.2) else st

/-- The PhaseModel state invariant: the confidence lies between 0 and 4,
a known offset lies in the interval from 0 up to excluding PURGE_PERIOD,
and a confidence of 0 forces the offset to be unknown. -/
def PhaseInv (purgeOffset : Option ℤ) (purgeConfidence : ℤ) : Prop :=
  0 ≤ purgeConfidence ∧ purgeConfidence ≤ 4 ∧
  (match purgeOffset with
   | none => True
   | some o => 0 ≤ o ∧ o < PURGE_PERIOD) ∧
  (purgeConfidence = 0 → purgeOffset = none)

/-- Truncating remainder by a positive modulus is strictly above the
negated modulus. -/
theorem tmod_gt_neg (a : ℤ) {n : ℤ} (hn : 0 < n) : -n < a.tmod n := by
  have hneg : (-a).tmod n = -(a.tmod n) := by
    rw [Int.tmod_def, Int.tmod_def, Int.neg_tdiv]
    ring
  rcases le_or_lt 0 a with ha | ha
  · have := Int.tmod_nonneg n ha
    omega
  · have h1 : (-a).tmod n < n := Int.tmod_lt_of_pos (-a) hn
    omega

/-- The embedded JavaScript modulus lands in the interval from 0 up to
excluding a positive modulus. -/
theorem jsMod_bounds (a : ℤ) {n : ℤ} (hn : 0 < n) : 0 ≤ jsMod a n ∧ jsMod a n < n := by
  have h1 : -n < a.tmod n := tmod_gt_neg a hn
  have h2 : (0 : ℤ) ≤ a.tmod n + n := by omega
  have h3 : jsMod a n = (a.tmod n + n) % n := Int.tmod_eq_emod h2 (by omega)
  rw [h3]
  exact ⟨Int.emod_nonneg _ (by omega), Int.emod_lt_of_pos _ hn⟩

/-- C3: the PhaseModel invariant is preserved by the Purge recentering and
confidence update at every step and for either observed outcome. -/
theorem purgeUpdate_preserves_inv (t : ℤ) (survived : Bool)
    (purgeOffset : Option ℤ) (purgeConfidence : ℤ)
    (h : PhaseInv purgeOffset purgeConfidence) :
    PhaseInv (purgeUpdate t survived purgeOffset purgeConfidence).1
      (purgeUpdate t survived purgeOffset purgeConfidence).2 := by
  obtain ⟨hc0, hc4, hoff, hzero⟩ := h
  have hper : (0 : ℤ) < PURGE_PERIOD := by decide
  have hphase := jsMod_bounds t hper
  cases survived with
  | true =>
    cases purgeOffset with
    | none =>
      have e : purgeUpdate t true none purgeConfidence =
          (some (jsMod t PURGE_PERIOD), 1) := rfl
      rw [e]
      exact ⟨by norm_num, by norm_num, hphase, fun hz => absurd hz (by norm_num)⟩
    | some o =>
      obtain ⟨ho0, ho200⟩ := hoff
      have e : purgeUpdate t true (some o) purgeConfidence =
          if inProbePurge (some o) t then
            (some (Int.tmod ((o * 3 + jsMod t PURGE_PERIOD + 2).fdiv 4) PURGE_PERIOD),
             min 4 (purgeConfidence + 1))
          else (some o, purgeConfidence) := rfl
      rw [e]
      by_cases hp : inProbePurge (some o) t
      · rw [if_pos hp]
        have hfd : (o * 3 + jsMod t PURGE_PERIOD + 2).fdiv 4
            = (o * 3 + jsMod t PURGE_PERIOD + 2) / 4 :=
          Int.fdiv_eq_ediv _ (by norm_num)
        have hqnn : 0 ≤ (o * 3 + jsMod t PURGE_PERIOD + 2).fdiv 4 := by
          rw [hfd]
          omega
        have htm : Int.tmod ((o * 3 + jsMod t PURGE_PERIOD + 2).fdiv 4) PURGE_PERIOD
            = ((o * 3 + jsMod t PURGE_PERIOD + 2).fdiv 4) % PURGE_PERIOD :=
          Int.tmod_eq_emod hqnn (by decide)
        refine ⟨by omega, by omega, ?_, ?_⟩
        · rw [htm]
          exact ⟨Int.emod_nonneg _ (by decide), Int.emod_lt_of_pos _ hper⟩
        · intro hz
          exact absurd hz (by omega)
      · rw [if_neg hp]
        exact ⟨hc0, hc4, ⟨ho0, ho200⟩, fun hz => absurd (hzero hz) (Option.some_ne_none o)⟩
  | false =>
    have e : purgeUpdate t false purgeOffset purgeConfidence =
        (let st := purgeFailAdjust t purgeOffset purgeConfidence
         if st.2 = 0 then (none, st.2) else st) := rfl
    rw [e]
    have hadj : 0 ≤ (purgeFailAdjust t purgeOffset purgeConfidence).2 ∧
        (purgeFailAdjust t purgeOffset purgeConfidence).2 ≤ 4 ∧
        (match (purgeFailAdjust t purgeOffset purgeConfidence).1 with
         | none => True
         | some o => 0 ≤ o ∧ o < PURGE_PERIOD) := by
      cases purgeOffset with
      | none => exact ⟨hc0, hc4, trivial⟩
      | some o =>
        obtain ⟨ho0, ho200⟩ := hoff
        by_cases hp : inProbePurge (some o) t
        · have e2 : purgeFailAdjust t (some o) purgeConfidence =
              (some (jsMod (o + (if jsMod (jsMod t PURGE_PERIOD - o) PURGE_PERIOD
                  > PURGE_PERIOD / 2 then -1 else 1)) PURGE_PERIOD),
               max 0 (purgeConfidence - 1)) := by
            rw [purgeFailAdjust, if_pos hp]
          rw [e2]
          have hb := jsMod_bounds (o + (if jsMod (jsMod t PURGE_PERIOD - o) PURGE_PERIOD
              > PURGE_PERIOD / 2 then -1 else 1)) hper
          exact ⟨by omega, by omega, hb⟩
        · have e2 : purgeFailAdjust t (some o) purgeConfidence =
              (some o, purgeConfidence) := by
            rw [purgeFailAdjust, if_neg hp]
          rw [e2]
          exact ⟨hc0, hc4, ho0, ho200⟩
    obtain ⟨ha0, ha4, haoff⟩ := hadj
    by_cases hz : (purgeFailAdjust t purgeOffset purgeConfidence).2 = 0
    · simp only [hz, if_pos rfl]
      exact ⟨le_refl 0, by norm_num, trivial, fun _ => rfl⟩
    · simp only [if_neg hz]
      exact ⟨ha0, ha4, haoff, fun h0 => absurd h0 hz⟩

/-- Witness for purgeUpdate_preserves_inv: a concrete invariant-satisfying
state, and the invariant after one update at step 5 with a win. -/
theorem purgeUpdate_preserves_inv_witness :
    PhaseInv (some 10) 2 ∧
    PhaseInv (purgeUpdate 5 true (some 10) 2).1 (purgeUpdate 5 true (some 10) 2).2 :=
  have hinv : PhaseInv (some 10) 2 :=
    ⟨by norm_num, by norm_num, ⟨by norm_num, by decide⟩, fun h0 => absurd h0 (by norm_num)⟩
  ⟨hinv, purgeUpdate_preserves_inv 5 true (some 10) 2 hinv⟩

/-- The two candidate planets other than the given one, in the order of
ALL_PLANETS = [ON_A_COB, CRONENBERG, PURGE] after filtering out the
current planet, as in the after-loss branch of the run loop. -/
def otherTwo : Planet → Planet × Planet
  | Planet.onACob => (Planet.cronenberg, Planet.purge)
  | Planet.cronenberg => (Planet.onACob, Planet.purge)
  | Planet.purge => (Planet.onACob, Planet.cronenberg)

/-- Embeds the Thompson-sampling pick of the after-loss branch: the two
candidate draws are sorted in descending order (a stable two-element sort)
and the planet with the highest draw is taken; on a tie the earlier
candidate stays first. The Beta draws themselves are supplied as an
oracle from planets to values. -/
def tsPick (currentPlanet : Planet) (draws : Planet → ℚ) : Planet :=
  let c := otherTwo currentPlanet
  if draws c.2 > draws c.1 then c.2 else c.1

/-- Embeds the planet-and-count choice of the run loop of the strategy
source, in its branch order: the tight Purge crest override, the periodic
Purge phase probe, the initial probe when no planet has been used yet,
the after-win branch (stay on the current planet, with 3 units when the
afterWin posterior mean reaches STAY_THRESHOLD and no sanity probe is
due, otherwise 1), and the after-loss Thompson branch. -/
def choose (S : Planet → PlanetState) (purgeOffset : Option ℤ) (purgeConfidence : ℤ)
    (lastPurgeProbe : Option ℤ) (currentPlanet : Option Planet) (t : ℤ)
    (draws : Planet → ℚ) : Planet × ℕ :=
  if inTightPurge purgeOffset t then
    (Planet.purge, if purgeConfidence ≥ CONF_FOR_X3 then 3 else 1)
  else if needPurgeProbe purgeOffset lastPurgeProbe t then
    (Planet.purge, 1)
  else
    match currentPlanet with
    | none => (Planet.onACob, 1)
    | some p =>
      let st := S p
      if st.lastOutcome = some true then
        let meanStay := betaMean st.afterWin.a st.afterWin.b
        if meanStay ≥ STAY_THRESHOLD ∧
            ¬ (st.streakWins ≥ MAX_STREAK_BEFORE_SANITY ∧ ¬ inProbePurge purgeOffset t) then
          (p, 3)
        else (p, 1)
      else (tsPick p draws, 1)

/-- A concrete learner state: the On a Cob channel is on a five-win hot
streak with afterWin posterior Beta(93, 7), the other channels are at
their priors. -/
def chcState : Planet → PlanetState
  | Planet.onACob =>
    { afterWin := { a := 93, b := 7 }
      afterLoss := { a := 3, b := 7 }
      lastOutcome := some true
      streakWins := 5 }
  | _ => mkPlanetState

/-- C2 counterexample: a channel with lastOutcome success, streak 5 and
afterWin posterior mean 0.93 above the stay-threshold, yet the engine
selects the Purge planet, not that channel, because the step lies in the
tight Purge crest window, which has higher priority than the hot-streak
rule. -/
theorem choose_hot_streak_counterexample :
    (chcState Planet.onACob).lastOutcome = some true ∧
    (chcState Planet.onACob).streakWins = 5 ∧
    betaMean (chcState Planet.onACob).afterWin.a (chcState Planet.onACob).afterWin.b
      > STAY_THRESHOLD ∧
    choose chcState (some 0) 2 none (some Planet.onACob) 200 (fun _ => 0)
      = (Planet.purge, 3) ∧
    Planet.purge ≠ Planet.onACob := by
  refine ⟨rfl, rfl, ?_, ?_, by decide⟩
  · norm_num [chcState, betaMean, STAY_THRESHOLD]
  · rfl

/-- C2 (amended): if additionally the step is outside the tight Purge
crest window and the periodic Purge probe does not fire, then for a
current channel with lastOutcome success, streak 5 and afterWin posterior
mean above the stay-threshold, the engine stays on that channel with
count 3, independently of all Thompson draws, and the committed batch is
min(3, remainingUnits). -/
theorem choose_hot_streak_amended (S : Planet → PlanetState) (purgeOffset : Option ℤ)
    (purgeConfidence : ℤ) (lastPurgeProbe : Option ℤ) (t : ℤ) (p : Planet)
    (draws : Planet → ℚ) (remaining : ℕ)
    (hwin : (S p).lastOutcome = some true)
    (hstreak : (S p).streakWins = 5)
    (hmean : betaMean (S p).afterWin.a (S p).afterWin.b > STAY_THRESHOLD)
    (htight : inTightPurge purgeOffset t = false)
    (hprobe : needPurgeProbe purgeOffset lastPurgeProbe t = false)
    (hrem : 1 ≤ remaining) :
    choose S purgeOffset purgeConfidence lastPurgeProbe (some p) t draws = (p, 3) ∧
    clampMorties 3 remaining = min 3 remaining := by
  have hcond : betaMean (S p).afterWin.a (S p).afterWin.b ≥ STAY_THRESHOLD ∧
      ¬ ((S p).streakWins ≥ MAX_STREAK_BEFORE_SANITY ∧ ¬ inProbePurge purgeOffset t) := by
    refine ⟨le_of_lt hmean, ?_⟩
    rintro ⟨h6, -⟩
    rw [hstreak] at h6
    simp only [MAX_STREAK_BEFORE_SANITY] at h6
    omega
  constructor
  · simp only [choose, htight, hprobe, Bool.false_eq_true, if_false, hwin]
    rw [if_pos trivial, if_pos hcond]
  · simp only [clampMorties]
    omega

/-- Witness for choose_hot_streak_amended: the hot On a Cob channel at
step 20 with unknown Purge offset and a recent probe, remaining budget 2. -/
theorem choose_hot_streak_amended_witness :
    choose chcState none 0 (some 0) (some Planet.onACob) 20 (fun _ => 0)
      = (Planet.onACob, 3) ∧
    clampMorties 3 2 = min 3 2 :=
  choose_hot_streak_amended chcState none 0 (some 0) 20 Planet.onACob (fun _ => 0) 2
    rfl rfl (by norm_num [chcState, betaMean, STAY_THRESHOLD]) rfl rfl (by norm_num)

/-- A concrete learner state for the after-win branch: the On a Cob
channel has a six-win streak with afterWin posterior Beta(72, 28), whose
mean 0.72 meets the stay-threshold exactly. -/
def cawState : Planet → PlanetState
  | Planet.onACob =>
    { afterWin := { a := 72, b := 28 }
      afterLoss := { a := 3, b := 7 }
      lastOutcome := some true
      streakWins := 6 }
  | _ => mkPlanetState

/-- C10 counterexample: after a win, with the step outside the tight
crest window and the periodic probe not firing, the streak is 6 (not
below the sanity cap) and the afterWin mean meets the stay-threshold, yet
the engine sends 3 units rather than the claimed 1, because the step is
inside the wider Purge probe window, which suppresses the sanity probe. -/
theorem choose_after_win_counterexample :
    inTightPurge (some 0) 203 = false ∧
    needPurgeProbe (some 0) none 203 = false ∧
    (cawState Planet.onACob).lastOutcome = some true ∧
    ¬ ((cawState Planet.onACob).streakWins < MAX_STREAK_BEFORE_SANITY) ∧
    betaMean (cawState Planet.onACob).afterWin.a (cawState Planet.onACob).afterWin.b
      ≥ STAY_THRESHOLD ∧
    choose cawState (some 0) 1 none (some Planet.onACob) 203 (fun _ => 0)
      = (Planet.onACob, 3) := by
  have hmean : betaMean (cawState Planet.onACob).afterWin.a
      (cawState Planet.onACob).afterWin.b ≥ STAY_THRESHOLD := by
    norm_num [cawState, betaMean, STAY_THRESHOLD]
  refine ⟨rfl, rfl, rfl, by decide, hmean, ?_⟩
  have hcond : betaMean (cawState Planet.onACob).afterWin.a
      (cawState Planet.onACob).afterWin.b ≥ STAY_THRESHOLD ∧
      ¬ ((cawState Planet.onACob).streakWins ≥ MAX_STREAK_BEFORE_SANITY ∧
         ¬ inProbePurge (some 0) 203) := by
    refine ⟨hmean, ?_⟩
    rintro ⟨-, hnp⟩
    exact hnp rfl
  simp only [choose, show inTightPurge (some 0) 203 = false from rfl,
    show needPurgeProbe (some 0) none 203 = false from rfl, Bool.false_eq_true, if_false,
    show (cawState Planet.onACob).lastOutcome = some true from rfl]
  rw [if_pos trivial, if_pos hcond]

/-- C10 (amended): after a win, with the step outside the tight crest
window and the periodic probe not firing, the engine always stays on the
current channel, sending 3 units when the afterWin posterior mean reaches
the stay-threshold and (the streak is below the sanity cap or the step is
inside the Purge probe window), and 1 unit otherwise. -/
theorem choose_after_win_amended (S : Planet → PlanetState) (purgeOffset : Option ℤ)
    (purgeConfidence : ℤ) (lastPurgeProbe : Option ℤ) (t : ℤ) (p : Planet)
    (draws : Planet → ℚ)
    (hwin : (S p).lastOutcome = some true)
    (htight : inTightPurge purgeOffset t = false)
    (hprobe : needPurgeProbe purgeOffset lastPurgeProbe t = false) :
    choose S purgeOffset purgeConfidence lastPurgeProbe (some p) t draws =
      (p, if betaMean (S p).afterWin.a (S p).afterWin.b ≥ STAY_THRESHOLD ∧
            ((S p).streakWins < MAX_STREAK_BEFORE_SANITY ∨ inProbePurge purgeOffset t = true)
          then 3 else 1) := by
  simp only [choose, htight, hprobe, Bool.false_eq_true, if_false, hwin]
  rw [if_pos trivial]
  by_cases hc : betaMean (S p).afterWin.a (S p).afterWin.b ≥ STAY_THRESHOLD ∧
      ¬ ((S p).streakWins ≥ MAX_STREAK_BEFORE_SANITY ∧ ¬ inProbePurge purgeOffset t)
  · rw [if_pos hc, if_pos]
    obtain ⟨h1, h2⟩ := hc
    refine ⟨h1, ?_⟩
    by_cases hp : inProbePurge purgeOffset t = true
    · exact Or.inr hp
    · refine Or.inl ?_
      by_contra h6
      exact h2 ⟨by omega, hp⟩
  · rw [if_neg hc, if_neg]
    rintro ⟨h1, h2⟩
    apply hc
    refine ⟨h1, ?_⟩
    rintro ⟨h6, hp⟩
    rcases h2 with h2 | h2
    · omega
    · exact hp h2

/-- Witness for choose_after_win_amended at the six-streak state, step
203, known offset 0. -/
theorem choose_after_win_amended_witness :
    choose cawState (some 0) 1 none (some Planet.onACob) 203 (fun _ => 0) =
      (Planet.onACob,
       if betaMean (cawState Planet.onACob).afterWin.a (cawState Planet.onACob).afterWin.b
            ≥ STAY_THRESHOLD ∧
          ((cawState Planet.onACob).streakWins < MAX_STREAK_BEFORE_SANITY ∨
           inProbePurge (some 0) 203 = true)
        then 3 else 1) :=
  choose_after_win_amended cawState (some 0) 1 none 203 Planet.onACob (fun _ => 0)
    rfl rfl rfl

/-- Per-planet history of the ultimate strategy source: last result, the
last five results, and the current win and loss streak counters. -/
structure PlanetHistory where
  lastResult : Option Bool
  recentResults : List Bool
  consecutiveWins : ℕ
  consecutiveLosses : ℕ
deriving DecidableEq, Repr

/-- The initial per-planet history of the ultimate strategy source. -/
def mkPlanetHistory : PlanetHistory :=
  { lastResult := none, recentResults := [], consecutiveWins := 0, consecutiveLosses := 0 }

/-- Embeds updateHistory of the ultimate strategy source: record the
result, push it onto the recent window (dropping the oldest entry beyond
five), and advance one streak counter while resetting the other. -/
def updateHistory (h : PlanetHistory) (survived : Bool) : PlanetHistory :=
  let pushed := h.recentResults ++ [survived]
  let recent := if 5 < pushed.length then pushed.drop 1 else pushed
  if survived then
    { lastResult := some survived, recentResults := recent,
      consecutiveWins := h.consecutiveWins + 1, consecutiveLosses := 0 }
  else
    { lastResult := some survived, recentResults := recent,
      consecutiveWins := 0, consecutiveLosses := h.consecutiveLosses + 1 }

/-- Embeds getHotHandProbability of the ultimate strategy source: the
empirical confidence table keyed by streak length, 0.5 when no outcome
has been seen. -/
def getHotHandProbability (h : PlanetHistory) : ℚ :=
  match h.lastResult with
  | none => 1 / 2
  | some true =>
    let streak := h.consecutiveWins
    if streak = 1 then 75 / 100
    else if streak = 2 then 80 / 100
    else if streak = 3 then 88 / 100
    else if streak = 4 then 91 / 100
    else 93 / 100
  | some false =>
    let streak := h.consecutiveLosses
    if streak = 1 then 27 / 100
    else if streak = 2 then 20 / 100
    else if streak = 3 then 15 / 100
    else 10 / 100

/-- The signed streak printed by the run loop of the ultimate strategy
source after each trip: the post-update win streak on a win, the negated
post-update loss streak on a loss. -/
def signedStreakAux (h : PlanetHistory) : List Bool → List ℤ
  | [] => []
  | o :: rest =>
    let h2 := updateHistory h o
    (if o then (h2.consecutiveWins : ℤ) else -(h2.consecutiveLosses : ℤ))
      :: signedStreakAux h2 rest

/-- The signed streak trace of a sequence of outcomes on one planet,
starting from the fresh history. -/
def signedStreakTrace (outcomes : List Bool) : List ℤ :=
  signedStreakAux mkPlanetHistory outcomes

/-- C8: on the outcome sequence win, win, loss, win the signed streak
after each step is 1, 2, -1, 1. -/
theorem signedStreakTrace_wwlw :
    signedStreakTrace [true, true, false, true] = [1, 2, -1, 1] := by
  decide

/-- A history whose last result is a win with the given win streak, as
produced by a run of consecutive wins. -/
def winStreakHistory (s : ℕ) : PlanetHistory :=
  { lastResult := some true, recentResults := [], consecutiveWins := s, consecutiveLosses := 0 }

/-- A history whose last result is a loss with the given loss streak, as
produced by a run of consecutive losses. -/
def lossStreakHistory (s : ℕ) : PlanetHistory :=
  { lastResult := some false, recentResults := [], consecutiveWins := 0, consecutiveLosses := s }

/-- The confidence table is constant at 0.93 from win streak 5 onward. -/
theorem hotHand_win_ge5 (s : ℕ) (h5 : 5 ≤ s) :
    getHotHandProbability (winStreakHistory s) = 93 / 100 := by
  have h1 : ¬ s = 1 := by omega
  have h2 : ¬ s = 2 := by omega
  have h3 : ¬ s = 3 := by omega
  have h4 : ¬ s = 4 := by omega
  simp [getHotHandProbability, winStreakHistory, h1, h2, h3, h4]

/-- One step of monotonicity of the win-streak confidence table. -/
theorem hotHand_win_step (s : ℕ) (hs : 1 ≤ s) :
    getHotHandProbability (winStreakHistory s)
      ≤ getHotHandProbability (winStreakHistory (s + 1)) := by
  rcases s with _ | (_ | (_ | (_ | (_ | n))))
  · omega
  · norm_num [getHotHandProbability, winStreakHistory]
  · norm_num [getHotHandProbability, winStreakHistory]
  · norm_num [getHotHandProbability, winStreakHistory]
  · norm_num [getHotHandProbability, winStreakHistory]
  · rw [hotHand_win_ge5 _ (by omega), hotHand_win_ge5 _ (by omega)]

/-- The win-streak confidence table never drops below 0.75. -/
theorem hotHand_win_ge (s : ℕ) :
    75 / 100 ≤ getHotHandProbability (winStreakHistory s) := by
  simp only [getHotHandProbability, winStreakHistory]
  split_ifs <;> norm_num

/-- The loss-streak confidence table never rises above 0.27. -/
theorem hotHand_loss_le (s : ℕ) :
    getHotHandProbability (lossStreakHistory s) ≤ 27 / 100 := by
  simp only [getHotHandProbability, lossStreakHistory]
  split_ifs <;> norm_num

/-- C9: the empirical confidence table returns 0.5 when no outcome has
been seen, maps win streaks 1 to 4 to 0.75, 0.80, 0.88, 0.91 and every
streak of 5 or more to 0.93, is monotonically non-decreasing in the win
streak length, and for every streak length of at least 1 the value after
a win streak strictly exceeds the value after a loss streak of the same
length. -/
theorem hotHand_table_spec :
    getHotHandProbability mkPlanetHistory = 1 / 2 ∧
    getHotHandProbability (winStreakHistory 1) = 75 / 100 ∧
    getHotHandProbability (winStreakHistory 2) = 80 / 100 ∧
    getHotHandProbability (winStreakHistory 3) = 88 / 100 ∧
    getHotHandProbability (winStreakHistory 4) = 91 / 100 ∧
    (∀ s, 5 ≤ s → getHotHandProbability (winStreakHistory s) = 93 / 100) ∧
    (∀ s t, 1 ≤ s → s ≤ t →
      getHotHandProbability (winStreakHistory s) ≤ getHotHandProbability (winStreakHistory t)) ∧
    (∀ s, 1 ≤ s →
      getHotHandProbability (lossStreakHistory s) < getHotHandProbability (winStreakHistory s)) := by
  refine ⟨by norm_num [getHotHandProbability, mkPlanetHistory],
    by norm_num [getHotHandProbability, winStreakHistory],
    by norm_num [getHotHandProbability, winStreakHistory],
    by norm_num [getHotHandProbability, winStreakHistory],
    by norm_num [getHotHandProbability, winStreakHistory],
    hotHand_win_ge5, ?_, ?_⟩
  · intro s t hs hst
    induction t, hst using Nat.le_induction with
    | base => exact le_refl _
    | succ n hn ih => exact le_trans ih (hotHand_win_step n (le_trans hs hn))
  · intro s hs
    calc getHotHandProbability (lossStreakHistory s) ≤ 27 / 100 := hotHand_loss_le s
      _ < 75 / 100 := by norm_num
      _ ≤ getHotHandProbability (winStreakHistory s) := hotHand_win_ge s

/-- Witness for hotHand_table_spec: the quantified parts applied at
streak lengths 5, then 2 against 3, then 2. -/
theorem hotHand_table_spec_witness :
    getHotHandProbability (winStreakHistory 5) = 93 / 100 ∧
    getHotHandProbability (winStreakHistory 2) ≤ getHotHandProbability (winStreakHistory 3) ∧
    getHotHandProbability (lossStreakHistory 2) < getHotHandProbability (winStreakHistory 2) :=
  ⟨hotHand_table_spec.2.2.2.2.2.1 5 (by norm_num),
   hotHand_table_spec.2.2.2.2.2.2.1 2 3 (by norm_num) (by norm_num),
   hotHand_table_spec.2.2.2.2.2.2.2 2 (by norm_num)⟩

/-- The number of recorded survivals in a stretch of Purge history, where
each entry is a trip number paired with the survival flag. -/
def successCount (l : List (ℤ × Bool)) : ℕ :=
  (l.filter (fun e => e.2)).length

/-- The empirical success rate of a stretch of Purge history. -/
def rateOf (l : List (ℤ × Bool)) : ℚ :=
  (successCount l : ℚ) / (l.length : ℚ)

/-- Embeds estimatePurgeRate of the wave prediction strategy source: 0.5
on an empty history, otherwise the success rate over the last
min(10, length) recorded trips. -/
def estimatePurgeRate (purgeHistory : List (ℤ × Bool)) : ℚ :=
  if purgeHistory.length = 0 then 1 / 2
  else
    let windowSize := min 10 purgeHistory.length
    rateOf (purgeHistory.drop (purgeHistory.length - windowSize))

/-- Embeds detectPhaseOffset of the wave prediction strategy source:
below 15 recorded observations no offset is returned; otherwise the
recent rate band (high above 0.7, low below 0.3, medium) and the trend
between earlier and later stretches select a hypothesised position in the
200-trip cycle, reported as an offset relative to the current trip. -/
def detectPhaseOffset (purgeHistory : List (ℤ × Bool)) (currentTrip : ℤ) : Option ℤ :=
  if purgeHistory.length < 15 then none
  else
    let currentRate := estimatePurgeRate purgeHistory
    if currentRate > 7 / 10 then
      let early := purgeHistory.take (min 5 purgeHistory.length)
      let late := purgeHistory.drop (purgeHistory.length - 5)
      if rateOf late > rateOf early then some (currentTrip - 190)
      else some (currentTrip - 30)
    else if currentRate < 3 / 10 then some (currentTrip - 120)
    else if 10 ≤ purgeHistory.length then
      let firstHalf := purgeHistory.take (purgeHistory.length / 2)
      let secondHalf := purgeHistory.drop (purgeHistory.length / 2)
      if rateOf secondHalf > rateOf firstHalf + 15 / 100 then some (currentTrip - 160)
      else if rateOf firstHalf > rateOf secondHalf + 15 / 100 then some (currentTrip - 80)
      else some (currentTrip - 80)
    else some (currentTrip - 80)

/-- C6: with fewer than 15 recorded observations of the cyclic channel,
the offset estimator returns unknown rather than a guess. -/
theorem detectPhaseOffset_min_samples (purgeHistory : List (ℤ × Bool)) (currentTrip : ℤ)
    (h : purgeHistory.length < 15) :
    detectPhaseOffset purgeHistory currentTrip = none := by
  rw [detectPhaseOffset, if_pos h]

/-- Witness for detectPhaseOffset_min_samples on a three-element history. -/
theorem detectPhaseOffset_min_samples_witness :
    [((1 : ℤ), true), (2, false), (3, true)].length < 15 ∧
    detectPhaseOffset [((1 : ℤ), true), (2, false), (3, true)] 40 = none :=
  ⟨by norm_num,
   detectPhaseOffset_min_samples [((1 : ℤ), true), (2, false), (3, true)] 40 (by norm_num)⟩

/-- Result of a sampler run: the rejection error thrown for a
non-positive shape, exhaustion of the fuel bounding the unbounded
acceptance loop, or a sampled value. -/
inductive GRes where
  | err : GRes
  | diverge : GRes
  | ok : ℝ → GRes

/-- Embeds the Marsaglia and Tsang acceptance loop of gammaSample of the
strategy source, idealized over the reals: each iteration draws two
uniforms for a Box and Muller normal z, rejects non-positive
(1 + c z) cubed, and otherwise accepts d v by the squeeze or the
logarithmic test, consuming a third uniform. The stream of Math.random
values is the explicit rnd argument indexed by draw position, and the
loop is bounded by fuel. -/
noncomputable def mtLoop (d c : ℝ) (rnd : ℕ → ℝ) : ℕ → ℕ → GRes × ℕ
  | pos, 0 => (GRes.diverge, pos)
  | pos, fuel + 1 =>
    let u1 := rnd pos
    let u2 := rnd (pos + 1)
    let z := Real.sqrt (-2 * Real.log u1) * Real.cos (2 * Real.pi * u2)
    let v := (1 + c * z) ^ 3
    if v ≤ 0 then mtLoop d c rnd (pos + 2) fuel
    else
      let u := rnd (pos + 2)
      if u < 1 - 0.0331 * z ^ 4 then (GRes.ok (d * v), pos + 3)
      else if Real.log u < 0.5 * z * z + d * (1 - v + Real.log v) then
        (GRes.ok (d * v), pos + 3)
      else mtLoop d c rnd (pos + 3) fuel

/-- The shape at least 1 case of gammaSample of the strategy source:
d = k - 1/3, c = 1 / sqrt(9 d), then the acceptance loop. -/
noncomputable def gammaSampleGE1 (rnd : ℕ → ℝ) (k : ℝ) (pos fuel : ℕ) : GRes × ℕ :=
  let d := k - 1 / 3
  let c := 1 / Real.sqrt (9 * d)
  mtLoop d c rnd pos fuel

/-- Embeds gammaSample of the strategy source with its recursion made
explicit through a depth counter: a non-positive shape throws (err), a
shape below 1 draws a uniform and boosts the shape by 1 (the Johnk
transform, scaling the recursive sample by u to the power 1 / k), and a
shape of at least 1 runs the acceptance loop. -/
noncomputable def gammaSampleAux (rnd : ℕ → ℝ) : ℕ → ℝ → ℕ → ℕ → GRes × ℕ
  | 0, _, pos, _ => (GRes.diverge, pos)
  | depth + 1, k, pos, fuel =>
    if k ≤ 0 then (GRes.err, pos)
    else if k < 1 then
      let u := rnd pos
      match gammaSampleAux rnd depth (1 + k) (pos + 1) fuel with
      | (GRes.ok g, p) => (GRes.ok (g * u ^ (1 / k)), p)
      | r => r
    else gammaSampleGE1 rnd k pos fuel

/-- Embeds gammaSample of the strategy source. Recursion depth 2 is the
exact semantics: the boost recursion fires at most once, since a shape
below 1 recurses at shape 1 + k, which the next call handles without
further recursion. -/
noncomputable def gammaSample (rnd : ℕ → ℝ) (k : ℝ) (pos fuel : ℕ) : GRes × ℕ :=
  gammaSampleAux rnd 2 k pos fuel

/-- Embeds betaSample of the strategy source: two Gamma samples taken in
sequence from the same random stream, combined as x / (x + y). -/
noncomputable def betaSample (rnd : ℕ → ℝ) (a b : ℝ) (fuel : ℕ) : GRes :=
  match gammaSample rnd a 0 fuel with
  | (GRes.ok x, p) =>
    (match gammaSample rnd b p fuel with
     | (GRes.ok y, _) => GRes.ok (x / (x + y))
     | (r, _) => r)
  | (r, _) => r

/-- The acceptance loop never throws and only accepts positive values
when d is positive. -/
theorem mtLoop_ok (d c : ℝ) (rnd : ℕ → ℝ) (hd : 0 < d) :
    ∀ (fuel pos : ℕ), (mtLoop d c rnd pos fuel).1 ≠ GRes.err ∧
      ∀ x, (mtLoop d c rnd pos fuel).1 = GRes.ok x → 0 < x := by
  intro fuel
  induction fuel with
  | zero =>
    intro pos
    constructor
    · simp [mtLoop]
    · intro x hx
      simp [mtLoop] at hx
  | succ n ih =>
    intro pos
    simp only [mtLoop]
    split_ifs with h1 h2 h3
    · exact ih (pos + 2)
    · refine ⟨by simp, ?_⟩
      intro x hx
      simp only [GRes.ok.injEq] at hx
      rw [← hx]
      push_neg at h1
      exact mul_pos hd h1
    · refine ⟨by simp, ?_⟩
      intro x hx
      simp only [GRes.ok.injEq] at hx
      rw [← hx]
      push_neg at h1
      exact mul_pos hd h1
    · exact ih (pos + 3)

/-- The full Gamma sampler never throws and only produces positive values
for a positive shape and a positive random stream. -/
theorem gammaSampleAux_ok (rnd : ℕ → ℝ) (hrnd : ∀ i, 0 < rnd i) :
    ∀ (depth : ℕ) (k : ℝ) (pos fuel : ℕ), 0 < k →
      (gammaSampleAux rnd depth k pos fuel).1 ≠ GRes.err ∧
      ∀ x, (gammaSampleAux rnd depth k pos fuel).1 = GRes.ok x → 0 < x := by
  intro depth
  induction depth with
  | zero =>
    intro k pos fuel hk
    constructor
    · simp [gammaSampleAux]
    · intro x hx
      simp [gammaSampleAux] at hx
  | succ n ih =>
    intro k pos fuel hk
    simp only [gammaSampleAux]
    rw [if_neg (not_le.mpr hk)]
    by_cases hk1 : k < 1
    · rw [if_pos hk1]
      have hin := ih (1 + k) (pos + 1) fuel (by linarith)
      rcases hres : gammaSampleAux rnd n (1 + k) (pos + 1) fuel with ⟨r, p⟩
      rw [hres] at hin
      cases r with
      | err => exact (hin.1 rfl).elim
      | diverge =>
        constructor
        · simp
        · intro x hx
          simp at hx
      | ok g =>
        have hg : 0 < g := hin.2 g rfl
        have hval : 0 < g * rnd pos ^ (1 / k) :=
          mul_pos hg (Real.rpow_pos_of_pos (hrnd pos) _)
        constructor
        · simp
        · intro x hx
          simp only [GRes.ok.injEq] at hx
          rw [← hx]
          exact hval
    · rw [if_neg hk1]
      have hd : 0 < k - 1 / 3 := by
        push_neg at hk1
        linarith
      exact mtLoop_ok (k - 1 / 3) (1 / Real.sqrt (9 * (k - 1 / 3))) rnd hd fuel pos

/-- C5: for all positive shapes a and b and a stream of uniform draws
from the open unit interval, the Beta sampler never reaches the Gamma
sampler rejection branch for non-positive shape, and whenever it returns
a value, that value lies in the closed unit interval. -/
theorem betaSample_shape_safe (a b : ℝ) (rnd : ℕ → ℝ) (fuel : ℕ)
    (ha : 0 < a) (hb : 0 < b) (hrnd : ∀ i, 0 < rnd i ∧ rnd i < 1) :
    betaSample rnd a b fuel ≠ GRes.err ∧
    ∀ r, betaSample rnd a b fuel = GRes.ok r → 0 ≤ r ∧ r ≤ 1 := by
  have hpos : ∀ i, 0 < rnd i := fun i => (hrnd i).1
  have hga := gammaSampleAux_ok rnd hpos 2 a 0 fuel ha
  rw [betaSample]
  rcases e1 : gammaSample rnd a 0 fuel with ⟨r1, p1⟩
  rw [show gammaSample rnd a 0 fuel = gammaSampleAux rnd 2 a 0 fuel from rfl] at e1
  rw [e1] at hga
  cases r1 with
  | err => exact (hga.1 rfl).elim
  | diverge =>
    constructor
    · simp
    · intro r hr
      simp at hr
  | ok x =>
    have hx : 0 < x := hga.2 x rfl
    have hgb := gammaSampleAux_ok rnd hpos 2 b p1 fuel hb
    rcases e2 : gammaSample rnd b p1 fuel with ⟨r2, p2⟩
    simp only [show gammaSample rnd b p1 fuel = (r2, p2) from e2]
    rw [show gammaSample rnd b p1 fuel = gammaSampleAux rnd 2 b p1 fuel from rfl] at e2
    rw [e2] at hgb
    cases r2 with
    | err => exact (hgb.1 rfl).elim
    | diverge =>
      constructor
      · simp
      · intro r hr
        simp at hr
    | ok y =>
      have hy : 0 < y := hgb.2 y rfl
      constructor
      · simp
      · intro r hr
        simp only [GRes.ok.injEq] at hr
        rw [← hr]
        constructor
        · exact div_nonneg (le_of_lt hx) (by linarith)
        · rw [div_le_one (by linarith)]
          linarith

/-- Witness for betaSample_shape_safe at shapes 3 and 7 with the constant
stream one half and fuel 1. -/
theorem betaSample_shape_safe_witness :
    betaSample (fun _ => 1 / 2) 3 7 1 ≠ GRes.err ∧
    ∀ r, betaSample (fun _ => 1 / 2) 3 7 1 = GRes.ok r → 0 ≤ r ∧ r ≤ 1 :=
  betaSample_shape_safe 3 7 (fun _ => 1 / 2) 1 (by norm_num) (by norm_num)
    (fun i => by norm_num)
